import Mathlib

/-!
# Zero OS — verification of the window-manager / app-registry specification

Shallow embedding of the Zero OS shell logic: the window manager
(`launchApp`, `focusWindow`, `closeWindow`, the shared `topZ` counter),
the per-window lifecycle phase machine of `AppWindow`
(`handleMinimize` / `handleRestore` and their deferred settle callbacks),
drag clamping (`handleMouseMove`), desktop-icon reordering (`handleDrop`),
shell app deletion (`handleDeleteApp`) and the backend registry (`addApp`).
Each definition is translated directly from the corresponding source
function; theorems settle the specification's testable properties.
-/

namespace ZeroOS

/-- The `App` record (`backend.d.ts` / `main.mo`): display metadata plus a
non-negative `order`. -/
structure App where
  id : String
  name : String
  url : String
  emoji : String
  color : String
  order : Nat
  deriving DecidableEq

/-- `OpenWindow` as held by the shell component: `{ id, app, zIndex }`.
`id` is the window id (`app.id + Date.now()`), `app` the shortcut snapshot
captured at launch. -/
structure OpenWindow where
  id : String
  app : App
  zIndex : Nat
  deriving DecidableEq

/-- Window-manager state owned by the shell: the `openWindows` list
(`useState<OpenWindow[]>([])`) and the shared z-index counter `topZ`
(`useState(100)`). -/
structure WMState where
  openWindows : List OpenWindow
  topZ : Nat
  deriving DecidableEq

/-- Initial window-manager state: no open windows, counter at 100. -/
def initWM : WMState := ⟨[], 100⟩

/-- The `openInIframe` branch of `launchApp`: if a window for `app.id`
already exists (`prev.find((w) => w.app.id === app.id)`), bump the counter
and give that window the new value; otherwise append a fresh window with
id `app.id + Date.now()` (the timestamp is the `now` argument) and the new
counter value. -/
def launchAppIframe (app : App) (now : Nat) (s : WMState) : WMState :=
  if s.openWindows.any (fun w => w.app.id == app.id) then
    { openWindows := s.openWindows.map
        (fun w => if w.app.id == app.id then { w with zIndex := s.topZ + 1 } else w),
      topZ := s.topZ + 1 }
  else
    { openWindows := s.openWindows ++ [⟨app.id ++ toString now, app, s.topZ + 1⟩],
      topZ := s.topZ + 1 }

/-- `launchApp`: when `settings.openInIframe` is false the app's URL is
opened externally (`window.open(app.url, ...)`) and the window-manager
state is untouched; the second component records the externally opened
URLs of this call. -/
def launchApp (openInIframe : Bool) (app : App) (now : Nat) (s : WMState) :
    WMState × List String :=
  if openInIframe then (launchAppIframe app now s, [])
  else (s, [app.url])

/-- `closeWindow`: remove the window unconditionally
(`prev.filter((w) => w.id !== windowId)`). -/
def closeWindow (wid : String) (s : WMState) : WMState :=
  { s with openWindows := s.openWindows.filter (fun w => w.id != wid) }

/-- `focusWindow`: draw the next value from the shared counter and assign
it to the window with the given id; all other windows keep their zIndex. -/
def focusWindow (wid : String) (s : WMState) : WMState :=
  { openWindows := s.openWindows.map
      (fun w => if w.id == wid then { w with zIndex := s.topZ + 1 } else w),
    topZ := s.topZ + 1 }

/-- Window-manager intents for z-order reasoning: launches (with their
`Date.now()` timestamp) and focus requests. -/
inductive WMOp where
  | launch (app : App) (now : Nat)
  | focus (wid : String)
  deriving DecidableEq

/-- One intent processed as an atomic synchronous state update (launches
here are the `openInIframe` ones, the only ones that touch the manager). -/
def stepWM (s : WMState) (op : WMOp) : WMState :=
  match op with
  | .launch app now => launchAppIframe app now s
  | .focus wid => focusWindow wid s

/-- Run a sequence of intents from the initial state. -/
def runWM (ops : List WMOp) : WMState := ops.foldl stepWM initWM

/-- The window(s) an intent targets: a focus targets the window id, a
launch targets the window of the launched `app.id`. -/
def opTargets : WMOp → OpenWindow → Bool
  | .launch app _, w => w.app.id == app.id
  | .focus wid, w => w.id == wid

/-- Window lifecycle phase of `AppWindow`
(`"open" | "minimizing" | "minimized" | "restoring"`; the source literal
`"open"` is a Lean keyword, rendered here as `opened`). -/
inductive WindowPhase where
  | opened
  | minimizing
  | minimized
  | restoring
  deriving DecidableEq

/-- Component-local state of one `AppWindow`: the `app` prop, the dragged
position `pos` and the lifecycle `phase` (size is the fixed constant pair
`sizeW`/`sizeH` below; zIndex is owned by the shell, not this component). -/
structure AppWindowState where
  app : App
  pos : Int × Int
  phase : WindowPhase
  deriving DecidableEq

/-- Fixed window width, `useState({ w: 900, h: 580 })`. -/
def sizeW : Int := 900

/-- Fixed window height. -/
def sizeH : Int := 580

/-- `handleMinimize`: `setPhase("minimizing")`, unconditionally; the
deferred `setTimeout(() => setPhase("minimized"), 260)` is
`minimizeSettled`. -/
def handleMinimize (w : AppWindowState) : AppWindowState :=
  { w with phase := .minimizing }

/-- The deferred settle callback scheduled by `handleMinimize`, firing
after its 260 ms presentation delay: `setPhase("minimized")`. -/
def minimizeSettled (w : AppWindowState) : AppWindowState :=
  { w with phase := .minimized }

/-- `handleRestore`: `setPhase("restoring")`, unconditionally; the
deferred `setTimeout(() => setPhase("open"), 320)` is `restoreSettled`. -/
def handleRestore (w : AppWindowState) : AppWindowState :=
  { w with phase := .restoring }

/-- The deferred settle callback scheduled by `handleRestore`, firing
after its 320 ms presentation delay: `setPhase("open")`. -/
def restoreSettled (w : AppWindowState) : AppWindowState :=
  { w with phase := .opened }

/-- `handleMouseMove` of an active drag: the new position is the pointer
position minus the drag offset, clamped to
`[0, innerWidth - size.w] × [0, innerHeight - size.h]` via
`Math.max(0, Math.min(...))`. -/
def handleMouseMove (innerWidth innerHeight : Int) (dragOffset : Int × Int)
    (clientX clientY : Int) : Int × Int :=
  (max 0 (min (clientX - dragOffset.1) (innerWidth - sizeW)),
   max 0 (min (clientY - dragOffset.2) (innerHeight - sizeH)))

/-- A mounted window as observable from outside: the shell's `OpenWindow`
fields together with the mounted component's lifecycle phase. -/
structure MountedWindow where
  id : String
  app : App
  zIndex : Nat
  phase : WindowPhase
  deriving DecidableEq

/-- `closeWindow` acting on the mounted view: the entry is filtered out of
`openWindows` and its component unmounts. -/
def closeMounted (wid : String) (l : List MountedWindow) : List MountedWindow :=
  l.filter (fun w => w.id != wid)

/-- The deferred Minimizing→Minimized callback firing: the scheduled
`setPhase("minimized")` takes effect only on a window whose component is
still mounted, i.e. still present in the list; on an unmounted (closed)
window the state setter has no effect and raises no error. -/
def fireMinimizeSettle (wid : String) (l : List MountedWindow) : List MountedWindow :=
  l.map (fun w => if w.id == wid then { w with phase := .minimized } else w)

/-- Shell state relevant to app deletion: the registry list (`apps`) and
the window manager's `openWindows`. -/
structure ShellState where
  apps : List App
  openWindows : List OpenWindow
  deriving DecidableEq

/-- `handleDeleteApp`: `setApps(prev => prev.filter(a => a.id !== appId))`
(plus persisting to localStorage and a toast); no other shell state is
touched — in particular `openWindows` is not. -/
def handleDeleteApp (appId : String) (s : ShellState) : ShellState :=
  { s with apps := s.apps.filter (fun a => a.id != appId) }

/-- The `newApps.map((a, i) => ({ ...a, order: BigInt(i) }))` step of
`handleDrop`: reassign `order = index`, indices starting at the given
offset. -/
def withOrderIdx : Nat → List App → List App
  | _, [] => []
  | i, a :: rest => { a with order := i } :: withOrderIdx (i + 1) rest

/-- Core of `handleDrop` (DesktopIcons): splice the dragged app out at
`sourceIdx`, splice it back in at `targetIndex`, then reassign
`order = index`. `sourceIdx` is an index of the sorted list recorded at
drag start; an out-of-range source index leaves the list unchanged. -/
def handleDrop (l : List App) (sourceIdx targetIndex : Nat) : List App :=
  match l[sourceIdx]? with
  | none => l
  | some removed =>
      withOrderIdx 0 (List.insertIdx targetIndex removed (l.eraseIdx sourceIdx))

/-- `Map.add` of the backend's association maps: replace the binding when
the key is present, else append the new binding. -/
def mapAdd {α : Type} (k : String) (v : α) :
    List (String × α) → List (String × α)
  | [] => [(k, v)]
  | (k', v') :: rest =>
      if k' == k then (k, v) :: rest else (k', v') :: mapAdd k v rest

/-- Backend persistent storage (`main.mo`):
`userApps : Map<Principal, Map<Text, App>>`, principals rendered as
strings. -/
structure BackendState where
  userApps : List (String × List (String × App))
  deriving DecidableEq

/-- The calling user's app map (`userApps.get(caller)`), empty if absent. -/
def getUserApps (caller : String) (st : BackendState) : List (String × App) :=
  (st.userApps.lookup caller).getD []

/-- `addApp` (main.mo): take the caller's map (or a fresh empty one), then
`apps.add(app.id, app)` and `userApps.add(caller, apps)`. The function is
total — a duplicate id is silently overwritten, never rejected. -/
def addApp (caller : String) (app : App) (st : BackendState) : BackendState :=
  ⟨mapAdd caller (mapAdd app.id app (getUserApps caller st)) st.userApps⟩

/-- Sample shortcut used by the concrete witnesses. -/
def appA : App := ⟨"a", "Alpha", "https://a.example", "A", "#00f5ff", 0⟩

/-- Second sample shortcut. -/
def appB : App := ⟨"b", "Beta", "https://b.example", "B", "#bf00ff", 1⟩

/-- Third sample shortcut. -/
def appC : App := ⟨"c", "Gamma", "https://c.example", "C", "#ff0040", 2⟩

/-- A different shortcut reusing the id `"a"`. -/
def appA2 : App := ⟨"a", "Alpha2", "https://a2.example", "@", "#ffffff", 5⟩

/-- Sample `AppWindow` state in phase `opened`. -/
def winOpened : AppWindowState := ⟨appA, (80, 60), .opened⟩

/-- Sample `AppWindow` state in phase `restoring` (reachable in the UI:
the minimize button stays rendered during the restore animation). -/
def winRestoring : AppWindowState := ⟨appA, (80, 60), .restoring⟩

/-- Sample shell state: shortcuts `appA`, `appB` installed and one open
window showing the `appA` snapshot. -/
def shellWithWindow : ShellState := ⟨[appA, appB], [⟨"a1", appA, 101⟩]⟩

/-- Sample window-manager state with one window per app id. -/
def wmWithA : WMState := ⟨[⟨"a123", appA, 101⟩, ⟨"b456", appB, 102⟩], 102⟩

/-- Sample backend state with one caller owning one app with id `"a"`. -/
def backendWithA : BackendState := ⟨[("alice", [("a", appA)])]⟩

/-- Invariant of the window manager: every live `zIndex` is bounded by the
shared counter. -/
def zBounded (s : WMState) : Prop := ∀ w ∈ s.openWindows, w.zIndex ≤ s.topZ

/-- C10: when `settings.openInIframe` is false, `launchApp` leaves the
window manager entirely unchanged — the open-window collection and the
shared z-index counter are untouched — and the app's URL is opened
externally instead. -/
theorem launch_external_leaves_wm_unchanged (app : App) (now : Nat) (s : WMState) :
    (launchApp false app now s).1 = s ∧ (launchApp false app now s).2 = [app.url] := by
  simp [launchApp]

/-- C3: viewport clamping — whenever the window fits the viewport, every
drag update (any pointer position, any drag offset, including deltas that
would push the window off-screen) yields a position with
`0 ≤ x ≤ innerWidth - sizeW` and `0 ≤ y ≤ innerHeight - sizeH`; since the
updated position depends only on the current pointer event, this holds
after each drag update of every drag sequence. -/
theorem viewport_clamping (innerWidth innerHeight : Int) (dragOffset : Int × Int)
    (clientX clientY : Int) (hW : sizeW ≤ innerWidth) (hH : sizeH ≤ innerHeight) :
    0 ≤ (handleMouseMove innerWidth innerHeight dragOffset clientX clientY).1 ∧
    (handleMouseMove innerWidth innerHeight dragOffset clientX clientY).1 ≤
      innerWidth - sizeW ∧
    0 ≤ (handleMouseMove innerWidth innerHeight dragOffset clientX clientY).2 ∧
    (handleMouseMove innerWidth innerHeight dragOffset clientX clientY).2 ≤
      innerHeight - sizeH := by
  unfold handleMouseMove
  refine ⟨le_max_left _ _, max_le (by omega) (min_le_right _ _),
    le_max_left _ _, max_le (by omega) (min_le_right _ _)⟩

/-- Witness for the viewport-clamping theorem at a concrete drag event
that would push the window far off-screen to the left. -/
theorem viewport_clamping_witness :
    0 ≤ (handleMouseMove 1920 1080 (5, 5) (-5000) 3000).1 ∧
    (handleMouseMove 1920 1080 (5, 5) (-5000) 3000).1 ≤ 1920 - sizeW ∧
    0 ≤ (handleMouseMove 1920 1080 (5, 5) (-5000) 3000).2 ∧
    (handleMouseMove 1920 1080 (5, 5) (-5000) 3000).2 ≤ 1080 - sizeH :=
  viewport_clamping 1920 1080 (5, 5) (-5000) 3000 (by decide) (by decide)

/-- C4 counterexample: deleting app `"a"` removes the shortcut from the
registry, but the open window referencing app id `"a"` is still in the
open-window collection afterwards — `handleDeleteApp` never touches
`openWindows`, contradicting the claim that no `OpenWindow` referencing
the deleted app id remains. -/
theorem delete_app_keeps_window_cex :
    ((handleDeleteApp "a" shellWithWindow).apps.all (fun a => a.id != "a")) = true ∧
    ((handleDeleteApp "a" shellWithWindow).openWindows.any
      (fun w => w.app.id == "a")) = true := by decide

/-- C4 amended: after `handleDeleteApp appId`, the shortcut with that id
is absent from the registry, but the open-window collection is left
completely unchanged — a window referencing the deleted app id stays open,
showing its launch-time snapshot. -/
theorem delete_app_removes_shortcut_only (appId : String) (s : ShellState) :
    ((handleDeleteApp appId s).apps.all (fun a => a.id != appId)) = true ∧
    (handleDeleteApp appId s).openWindows = s.openWindows := by
  refine ⟨?_, rfl⟩
  rw [List.all_eq_true]
  intro a ha
  exact (List.mem_filter.mp ha).2

/-- C5 counterexample: Minimize on a window whose phase is not `open`
(here `restoring`, reachable in the UI during the restore animation)
changes the state — the phase becomes `minimizing`; likewise Restore on a
window whose phase is not `minimized` (here `open`) changes it to
`restoring`. Neither is a no-op, contradicting the no-op-tolerance claim. -/
theorem invalid_transition_not_noop_cex :
    handleMinimize winRestoring ≠ winRestoring ∧
    handleRestore winOpened ≠ winOpened := by decide

/-- C5 amended: `handleMinimize` and `handleRestore` are total and never
raise an error, but they do not check the current phase: Minimize always
sets the phase to `minimizing` and Restore always sets it to `restoring`,
whatever the current phase is, leaving position and app reference
unchanged. -/
theorem minimize_restore_unconditional (w : AppWindowState) :
    (handleMinimize w).phase = .minimizing ∧
    (handleMinimize w).pos = w.pos ∧ (handleMinimize w).app = w.app ∧
    (handleRestore w).phase = .restoring ∧
    (handleRestore w).pos = w.pos ∧ (handleRestore w).app = w.app := by
  simp [handleMinimize, handleRestore]

/-- C6: minimize/restore round trip — starting from phase `open`, Minimize
then its settle, then Restore then its settle, pass through exactly the
phases `open → minimizing → minimized → restoring → open` and return the
window state (position, app reference) unchanged. -/
theorem minimize_restore_roundtrip (w : AppWindowState) (h : w.phase = .opened) :
    ([w.phase,
      (handleMinimize w).phase,
      (minimizeSettled (handleMinimize w)).phase,
      (handleRestore (minimizeSettled (handleMinimize w))).phase,
      (restoreSettled (handleRestore (minimizeSettled (handleMinimize w)))).phase] =
      [.opened, .minimizing, .minimized, .restoring, .opened]) ∧
    restoreSettled (handleRestore (minimizeSettled (handleMinimize w))) = w := by
  obtain ⟨a, p, ph⟩ := w
  simp only at h
  subst h
  simp [handleMinimize, minimizeSettled, handleRestore, restoreSettled]

/-- Witness for the round-trip theorem at a concrete open window. -/
theorem minimize_restore_roundtrip_witness :
    ([winOpened.phase,
      (handleMinimize winOpened).phase,
      (minimizeSettled (handleMinimize winOpened)).phase,
      (handleRestore (minimizeSettled (handleMinimize winOpened))).phase,
      (restoreSettled (handleRestore
        (minimizeSettled (handleMinimize winOpened)))).phase] =
      [.opened, .minimizing, .minimized, .restoring, .opened]) ∧
    restoreSettled (handleRestore (minimizeSettled (handleMinimize winOpened))) =
      winOpened :=
  minimize_restore_roundtrip winOpened rfl

/-- C7: closing a window while its Minimizing→Minimized settle callback is
pending is final — when the deferred callback later fires it changes
nothing (no resurrection, no error), and the window id is absent from the
open set both right after the close and after the callback fires. -/
theorem close_pending_settle_final (wid : String) (l : List MountedWindow) :
    fireMinimizeSettle wid (closeMounted wid l) = closeMounted wid l ∧
    ((closeMounted wid l).all (fun w => w.id != wid)) = true ∧
    ((fireMinimizeSettle wid (closeMounted wid l)).all
      (fun w => w.id != wid)) = true := by
  have habs : ∀ w ∈ closeMounted wid l, (w.id != wid) = true := by
    intro w hw
    exact (List.mem_filter.mp hw).2
  have hmap : fireMinimizeSettle wid (closeMounted wid l) = closeMounted wid l := by
    unfold fireMinimizeSettle
    rw [List.map_congr_left (fun w hw => ?_), List.map_id']
    have : (w.id == wid) = false := by simpa [bne] using habs w hw
    simp [this]
  refine ⟨hmap, ?_, ?_⟩
  · rw [List.all_eq_true]; exact habs
  · rw [hmap, List.all_eq_true]; exact habs

/-- `withOrderIdx` assigns `order = offset + position`. -/
lemma withOrderIdx_get (i : Nat) (l : List App) (k : Nat)
    (hk : k < (withOrderIdx i l).length) :
    ((withOrderIdx i l).get ⟨k, hk⟩).order = i + k := by
  induction l generalizing i k with
  | nil => simp [withOrderIdx] at hk
  | cons a rest ih =>
      cases k with
      | zero => simp [withOrderIdx]
      | succ k' =>
          have hk' : k' < (withOrderIdx (i + 1) rest).length := by
            simpa [withOrderIdx] using hk
          have hrec := ih (i + 1) k' hk'
          simp only [withOrderIdx, List.get_cons_succ]
          omega

/-- C8: `handleDrop` reassigns `order = index` for every position of the
resulting sequence; in particular moving C before A in
`[A(order 0), B(order 1), C(order 2)]` yields
`[C(order 0), A(order 1), B(order 2)]` (order values exactly `{0, 1, 2}`). -/
theorem reorder_assigns_order_eq_index (l : List App) (s t k : Nat)
    (hs : s < l.length) (hk : k < (handleDrop l s t).length) :
    ((handleDrop l s t).get ⟨k, hk⟩).order = k ∧
    handleDrop [appA, appB, appC] 2 0 =
      [{ appC with order := 0 }, { appA with order := 1 },
       { appB with order := 2 }] := by
  refine ⟨?_, by decide⟩
  have hsome : l[s]? = some (l.get ⟨s, hs⟩) := List.getElem?_eq_getElem hs
  have hdrop : handleDrop l s t =
      withOrderIdx 0 (List.insertIdx t (l.get ⟨s, hs⟩) (l.eraseIdx s)) := by
    unfold handleDrop
    rw [hsome]
  rw [List.get_of_eq hdrop, withOrderIdx_get]
  simp

/-- Witness for the reorder theorem at the spec's concrete example. -/
theorem reorder_assigns_order_eq_index_witness :
    ((handleDrop [appA, appB, appC] 2 0).get ⟨1, by decide⟩).order = 1 ∧
    handleDrop [appA, appB, appC] 2 0 =
      [{ appC with order := 0 }, { appA with order := 1 },
       { appB with order := 2 }] :=
  reorder_assigns_order_eq_index [appA, appB, appC] 2 0 1 (by decide) (by decide)

/-- `mapAdd` binds the written key to the new value. -/
lemma lookup_mapAdd_self {α : Type} (k : String) (v : α) (l : List (String × α)) :
    (mapAdd k v l).lookup k = some v := by
  induction l with
  | nil => simp [mapAdd, List.lookup]
  | cons p rest ih =>
      obtain ⟨k', v'⟩ := p
      simp only [mapAdd]
      by_cases h : k' = k
      · subst h; simp [List.lookup]
      · have hb : (k' == k) = false := beq_eq_false_iff_ne.mpr h
        have hb' : (k == k') = false := beq_eq_false_iff_ne.mpr (Ne.symm h)
        simp [List.lookup, hb, hb', ih]

/-- `mapAdd` leaves every other key's binding unchanged. -/
lemma lookup_mapAdd_ne {α : Type} (k q : String) (v : α) (l : List (String × α))
    (h : q ≠ k) : (mapAdd k v l).lookup q = l.lookup q := by
  have hqk : (q == k) = false := beq_eq_false_iff_ne.mpr h
  induction l with
  | nil => simp [mapAdd, List.lookup, hqk]
  | cons p rest ih =>
      obtain ⟨k', v'⟩ := p
      simp only [mapAdd]
      by_cases h2 : k' = k
      · subst h2
        simp [List.lookup, hqk]
      · have hb : (k' == k) = false := beq_eq_false_iff_ne.mpr h2
        by_cases h3 : q = k'
        · subst h3
          simp [List.lookup, hb]
        · have hq' : (q == k') = false := beq_eq_false_iff_ne.mpr h3
          simp [List.lookup, hb, hq', ih]

/-- C9 counterexample: adding a second shortcut with the already-present
id `"a"` does not fail with `DuplicateId` and does not leave the registry
unchanged — the existing entry is silently overwritten (`addApp` is total
and upserts). -/
theorem add_duplicate_id_cex :
    addApp "alice" appA2 backendWithA = ⟨[("alice", [("a", appA2)])]⟩ ∧
    addApp "alice" appA2 backendWithA ≠ backendWithA := by decide

/-- C9 amended: `addApp` is total — it cannot fail. When `app.id` is not
yet present it inserts the shortcut; when a shortcut with that id is
already present it silently overwrites it. In both cases the caller's
registry afterwards maps `app.id` to the new shortcut, every other id
keeps its binding, and other callers' registries are untouched. -/
theorem add_app_upsert (caller : String) (app : App) (st : BackendState) :
    (getUserApps caller (addApp caller app st)).lookup app.id = some app ∧
    (∀ k, k ≠ app.id →
      (getUserApps caller (addApp caller app st)).lookup k =
        (getUserApps caller st).lookup k) ∧
    (∀ c, c ≠ caller → getUserApps c (addApp caller app st) = getUserApps c st) := by
  have hmaps : getUserApps caller (addApp caller app st) =
      mapAdd app.id app (getUserApps caller st) := by
    unfold getUserApps addApp
    rw [lookup_mapAdd_self]
    rfl
  refine ⟨?_, ?_, ?_⟩
  · rw [hmaps, lookup_mapAdd_self]
  · intro k hk
    rw [hmaps, lookup_mapAdd_ne _ _ _ _ hk]
  · intro c hc
    show ((addApp caller app st).userApps.lookup c).getD [] = _
    unfold addApp
    dsimp only
    rw [lookup_mapAdd_ne _ _ _ _ hc]
    rfl

/-- Witness for the upsert theorem: an unrelated id keeps its binding. -/
theorem add_app_upsert_witness :
    (getUserApps "alice" (addApp "alice" appA2 backendWithA)).lookup "zzz" =
      (getUserApps "alice" backendWithA).lookup "zzz" :=
  (add_app_upsert "alice" appA2 backendWithA).2.1 "zzz" (by decide)

/-- C2: launching an app whose id already has exactly one open window (in
any phase) creates no new window — the collection keeps exactly one
`OpenWindow` for that id, the second launch only raises that window's
`zIndex` to the next counter value, and every window is otherwise
unchanged (the result is the pointwise map that rewrites only the matching
window's `zIndex`). -/
theorem single_window_per_app (app : App) (now : Nat) (s : WMState)
    (hex : s.openWindows.any (fun w => w.app.id == app.id) = true)
    (hone : s.openWindows.countP (fun w => w.app.id == app.id) = 1) :
    (launchAppIframe app now s).openWindows =
      s.openWindows.map
        (fun w => if w.app.id == app.id then { w with zIndex := s.topZ + 1 }
          else w) ∧
    (launchAppIframe app now s).openWindows.countP
      (fun w => w.app.id == app.id) = 1 ∧
    (launchAppIframe app now s).openWindows.length = s.openWindows.length ∧
    (launchAppIframe app now s).topZ = s.topZ + 1 := by
  have hif : launchAppIframe app now s =
      { openWindows := s.openWindows.map
          (fun w => if w.app.id == app.id then { w with zIndex := s.topZ + 1 }
            else w),
        topZ := s.topZ + 1 } := by
    unfold launchAppIframe
    rw [if_pos hex]
  have hcomp : ((fun w : OpenWindow => w.app.id == app.id) ∘
      (fun w => if w.app.id == app.id then { w with zIndex := s.topZ + 1 }
        else w)) = fun w : OpenWindow => w.app.id == app.id := by
    funext w
    by_cases h : w.app.id = app.id
    · simp [h]
    · simp [h]
  refine ⟨by rw [hif], ?_, by rw [hif]; simp, by rw [hif]⟩
  rw [hif]
  dsimp only
  rw [List.countP_map, hcomp, hone]

/-- Witness for the single-window theorem at a concrete two-window state. -/
theorem single_window_per_app_witness :
    (launchAppIframe appA 7 wmWithA).openWindows.countP
      (fun w => w.app.id == appA.id) = 1 ∧
    (launchAppIframe appA 7 wmWithA).openWindows.length =
      wmWithA.openWindows.length :=
  ⟨(single_window_per_app appA 7 wmWithA (by decide) (by decide)).2.1,
   (single_window_per_app appA 7 wmWithA (by decide) (by decide)).2.2.1⟩

/-- Every intent advances the shared counter by exactly one. -/
lemma stepWM_topZ (s : WMState) (op : WMOp) : (stepWM s op).topZ = s.topZ + 1 := by
  cases op with
  | launch app now =>
      show (launchAppIframe app now s).topZ = s.topZ + 1
      unfold launchAppIframe
      split <;> rfl
  | focus wid => rfl

/-- The z-bound invariant is preserved by every intent. -/
lemma zBounded_stepWM (s : WMState) (op : WMOp) (h : zBounded s) :
    zBounded (stepWM s op) := by
  intro w hw
  rw [stepWM_topZ]
  cases op with
  | launch app now =>
      simp only [stepWM, launchAppIframe] at hw
      by_cases hex : (s.openWindows.any (fun x => x.app.id == app.id)) = true
      · rw [if_pos hex] at hw
        dsimp only at hw
        obtain ⟨w0, hw0, rfl⟩ := List.mem_map.mp hw
        cases hb : (w0.app.id == app.id) with
        | true => simp [hb]
        | false =>
            simp only [hb, Bool.false_eq_true, if_false]
            exact le_trans (h w0 hw0) (Nat.le_succ _)
      · rw [if_neg hex] at hw
        dsimp only at hw
        rcases List.mem_append.mp hw with h1 | h2
        · exact le_trans (h w h1) (Nat.le_succ _)
        · simp only [List.mem_singleton] at h2
          subst h2
          exact le_refl _
  | focus wid =>
      simp only [stepWM, focusWindow] at hw
      obtain ⟨w0, hw0, rfl⟩ := List.mem_map.mp hw
      cases hb : (w0.id == wid) with
      | true => simp [hb]
      | false =>
          simp only [hb, Bool.false_eq_true, if_false]
          exact le_trans (h w0 hw0) (Nat.le_succ _)

/-- The z-bound invariant holds along any run from the initial state. -/
lemma zBounded_foldl (ops : List WMOp) (s : WMState) (h : zBounded s) :
    zBounded (ops.foldl stepWM s) := by
  induction ops generalizing s with
  | nil => exact h
  | cons op rest ih => exact ih _ (zBounded_stepWM s op h)

/-- The z-bound invariant holds in every reachable state. -/
lemma zBounded_runWM (ops : List WMOp) : zBounded (runWM ops) := by
  unfold runWM
  apply zBounded_foldl
  intro w hw
  simp [initWM] at hw

/-- Right after an intent, every window it targeted carries the fresh
counter value. -/
lemma stepWM_target_zIndex (s : WMState) (op : WMOp) (w : OpenWindow)
    (hw : w ∈ (stepWM s op).openWindows) (ht : opTargets op w = true) :
    w.zIndex = s.topZ + 1 := by
  cases op with
  | launch app now =>
      simp only [stepWM, launchAppIframe] at hw
      simp only [opTargets] at ht
      by_cases hex : (s.openWindows.any (fun x => x.app.id == app.id)) = true
      · rw [if_pos hex] at hw
        dsimp only at hw
        obtain ⟨w0, hw0, rfl⟩ := List.mem_map.mp hw
        cases hb : (w0.app.id == app.id) with
        | true => simp [hb]
        | false => simp [hb] at ht
      · rw [if_neg hex] at hw
        dsimp only at hw
        rcases List.mem_append.mp hw with h1 | h2
        · exact absurd (List.any_eq_true.mpr ⟨w, h1, ht⟩) hex
        · simp only [List.mem_singleton] at h2
          subst h2
          rfl
  | focus wid =>
      simp only [stepWM, focusWindow] at hw
      simp only [opTargets] at ht
      obtain ⟨w0, hw0, rfl⟩ := List.mem_map.mp hw
      cases hb : (w0.id == wid) with
      | true => simp [hb]
      | false => simp [hb] at ht

/-- Right after an intent, a window it did not target keeps a zIndex
bounded by the previous counter value. -/
lemma stepWM_nontarget_zIndex (s : WMState) (op : WMOp) (w : OpenWindow)
    (h : zBounded s) (hw : w ∈ (stepWM s op).openWindows)
    (ht : opTargets op w = false) : w.zIndex ≤ s.topZ := by
  cases op with
  | launch app now =>
      simp only [stepWM, launchAppIframe] at hw
      simp only [opTargets] at ht
      by_cases hex : (s.openWindows.any (fun x => x.app.id == app.id)) = true
      · rw [if_pos hex] at hw
        dsimp only at hw
        obtain ⟨w0, hw0, rfl⟩ := List.mem_map.mp hw
        cases hb : (w0.app.id == app.id) with
        | true => simp [hb] at ht
        | false =>
            simp only [hb, Bool.false_eq_true, if_false]
            exact h w0 hw0
      · rw [if_neg hex] at hw
        dsimp only at hw
        rcases List.mem_append.mp hw with h1 | h2
        · exact h w h1
        · simp only [List.mem_singleton] at h2
          subst h2
          simp at ht
  | focus wid =>
      simp only [stepWM, focusWindow] at hw
      simp only [opTargets] at ht
      obtain ⟨w0, hw0, rfl⟩ := List.mem_map.mp hw
      cases hb : (w0.id == wid) with
      | true => simp [hb] at ht
      | false =>
          simp only [hb, Bool.false_eq_true, if_false]
          exact h w0 hw0

/-- C1: z-order monotonicity — after any sequence of Launch/Focus intents,
the window targeted by the last intent (the window focused last, or the
window of the app launched last) has a zIndex strictly greater than every
other open window's; the final intent advanced the shared counter by
exactly one, and a Focus rewrites precisely the focused window's zIndex to
the new counter value while all other windows keep theirs. -/
theorem zorder_monotonicity (ops : List WMOp) (op : WMOp) (w w' : OpenWindow)
    (hw : w ∈ (runWM (ops ++ [op])).openWindows)
    (hwT : opTargets op w = true)
    (hw' : w' ∈ (runWM (ops ++ [op])).openWindows)
    (hw'T : opTargets op w' = false) :
    w'.zIndex < w.zIndex ∧
    (runWM (ops ++ [op])).topZ = (runWM ops).topZ + 1 ∧
    ∀ wid, op = .focus wid →
      (runWM (ops ++ [op])).openWindows =
        (runWM ops).openWindows.map
          (fun x => if x.id == wid then { x with zIndex := (runWM ops).topZ + 1 }
            else x) := by
  have hrun : runWM (ops ++ [op]) = stepWM (runWM ops) op := by
    simp [runWM, List.foldl_append]
  have hb : zBounded (runWM ops) := zBounded_runWM ops
  rw [hrun] at hw hw'
  refine ⟨?_, ?_, ?_⟩
  · have h1 := stepWM_target_zIndex (runWM ops) op w hw hwT
    have h2 := stepWM_nontarget_zIndex (runWM ops) op w' hb hw' hw'T
    omega
  · rw [hrun, stepWM_topZ]
  · rintro wid rfl
    rw [hrun]
    rfl

/-- Witness for z-order monotonicity: launch A, launch B, focus A's
window — A's window (zIndex 103) is strictly above B's (zIndex 102). -/
theorem zorder_monotonicity_witness :
    (OpenWindow.mk "b2" appB 102).zIndex < (OpenWindow.mk "a1" appA 103).zIndex :=
  (zorder_monotonicity [.launch appA 1, .launch appB 2] (.focus "a1")
    ⟨"a1", appA, 103⟩ ⟨"b2", appB, 102⟩
    (by decide) (by decide) (by decide) (by decide)).1

end ZeroOS
